import Mathlib

/-!
Verification of the YC-company filter core (`1_fetch_companies_api.py`, plus the
inline filter of `yc_outreach_tool.py`).

Shallow embedding conventions:
* Python `str` is Lean `String`; strings are manipulated through their
  character lists (`String.data`).  Percent-decoding (`urllib.parse.unquote`)
  is modelled byte-wise: each `%XY` hex pair becomes the character with that
  code.  This is exact on ASCII input; multi-byte UTF-8 recombination is out
  of scope.
* `str.lower` is modelled on ASCII (`lowerChar`), and the regex `\d` of
  `re.findall` is modelled as the ASCII digits, matching its behaviour on all
  inputs that occur in this code's domain.
* Python exceptions are modelled with `Except Unit`: a function that can raise
  an uncaught `TypeError` returns `Except.error ()` on exactly the inputs
  where the Python code raises.
* A Python dict used as a filter spec is modelled by the structure
  `FilterSpec`, with `Option` encoding key presence: `none` is "key absent
  from the dict" (which is what the clean-up step of `parse_yc_url_filters`
  produces for `None`/empty values).
* `json.loads` is modelled for array documents — the only shape
  `parse_team_size_filter` can hand it — with the full range of element
  values: strings (with escapes, including `\uXXXX` and surrogate pairs),
  integers, floats (as exact decimals), booleans, `null`, `NaN`/`Infinity`,
  and nested arrays and objects.  Lone surrogates (not representable in
  `Char`) and IEEE rounding/formatting of floats are outside the modelled
  scope; no verified claim depends on them.
* `urlparse` is modelled with its error path: `urlsplit` raises
  `ValueError('Invalid IPv6 URL')` when the authority has unbalanced
  brackets (`parse_yc_url_filtersE`); the bracketed-host validation newer
  CPython performs on balanced brackets is outside the modelled scope.
-/

mutual
/-- Elements of the team-size filter list: the Python values `json.loads`
of a bracketed team-size parameter can produce.  A float is kept as its
exact decimal value `m * 10 ^ e` (Python's IEEE rounding and shortest
round-trip printing are outside the modelled scope); lists and dicts are
the mutual types `TSList` / `TSObj`. -/
inductive TSToken where
  | str (s : String)
  | num (n : Int)
  | float (m : Int) (e : Int)
  | bool (b : Bool)
  | null
  | nan
  | inf (neg : Bool)
  | arr (elems : TSList)
  | obj (fields : TSObj)
deriving DecidableEq
/-- A decoded JSON array nested inside a team-size token. -/
inductive TSList where
  | nil
  | cons (hd : TSToken) (tl : TSList)
deriving DecidableEq
/-- A decoded JSON object nested inside a team-size token, in insertion
order with duplicate keys collapsed (last value wins), as a Python dict. -/
inductive TSObj where
  | nil
  | cons (key : String) (val : TSToken) (tl : TSObj)
deriving DecidableEq
end

/-- ASCII decimal digit test; models the regex class `\d` of `re.findall`
and `str.isdigit` on the ASCII range. -/
def isDigitChar (c : Char) : Bool :=
  48 ≤ c.toNat && c.toNat ≤ 57

/-- ASCII lower-casing of one character; models `str.lower` on ASCII. -/
def lowerChar (c : Char) : Char :=
  if 65 ≤ c.toNat ∧ c.toNat ≤ 90 then Char.ofNat (c.toNat + 32) else c

/-- Lower-cased character list of a string; models `s.lower()`. -/
def lowerS (s : String) : List Char :=
  s.data.map lowerChar

/-- `needle in hay` for Python strings (on character lists): some drop of
`hay` has `needle` as a prefix.  The empty needle is contained everywhere. -/
def isSubstrL (needle hay : List Char) : Bool :=
  (List.range (hay.length + 1)).any (fun i => needle.isPrefixOf (hay.drop i))

/-- Case-insensitive containment of a token in a record field; models
`tok.lower() in field.lower()`. -/
def tokInCI (tok field : String) : Bool :=
  isSubstrL (lowerS tok) (lowerS field)

/-- `any(t.lower() in field.lower() for t in toks)`. -/
def anyTokCI (toks : List String) (field : String) : Bool :=
  toks.any (fun t => tokInCI t field)

/-- `any(any(t.lower() in f.lower() for f in fields) for t in toks)`. -/
def anyTokCIList (toks : List String) (fields : List String) : Bool :=
  toks.any (fun t => fields.any (fun f => tokInCI t f))

/-- `s.replace(',', '')` for the single-character pattern: drop every comma. -/
def removeCommas (s : String) : String :=
  ⟨s.data.filter (fun c => !(c == ','))⟩

/-- Numeric value of a digit run, as produced by `int` on the matched text
of `re.findall(r'\d+', ...)`. -/
def digitsVal (l : List Char) : Nat :=
  l.foldl (fun n c => 10 * n + (c.toNat - 48)) 0

/-- Worker for `findallDigits`: `cur` carries the value of the digit run
currently being read, if any. -/
def runsAux : List Char → Option Nat → List Nat
  | [], none => []
  | [], some n => [n]
  | c :: rest, cur =>
      if isDigitChar c then
        runsAux rest (some (10 * cur.getD 0 + (c.toNat - 48)))
      else
        match cur with
        | none => runsAux rest none
        | some n => n :: runsAux rest none

/-- `[int(m) for m in re.findall(r'\d+', s)]`: the values of the maximal
digit runs of `s`, in order. -/
def findallDigits (s : String) : List Nat :=
  runsAux s.data none

/-!  Team-size range parsing and matching (`parse_team_size_range`,
`matches_team_size_filter`, lines 134-176 of `1_fetch_companies_api.py`). -/

/-- Python truthiness of a team-size token (`if not team_size_str`).  For
floats the zero test is on the exact decimal, which matches Python except
for literals that underflow to `0.0` in IEEE arithmetic. -/
def tsTruthy : TSToken → Bool
  | .str s => !(s == "")
  | .num n => !(n == 0)
  | .float m _ => !(m == 0)
  | .bool b => b
  | .null => false
  | .nan => true
  | .inf _ => true
  | .arr l => !(l == .nil)
  | .obj o => !(o == .nil)

/-- The `(min_size, max_size)` range computed by `parse_team_size_range` for
a string token; `none` as second component is `float('inf')`. -/
def strRange (s : String) : Int × Option Int :=
  if isSubstrL "1,000+".data s.data || isSubstrL "1000+".data s.data then
    (1000, none)
  else
    match findallDigits (removeCommas s) with
    | [] => (0, some 0)
    | [n] => ((n : Int), some (n : Int))
    | n1 :: n2 :: _ => ((n1 : Int), some (n2 : Int))

/-- Python `repr` of a string: single-quoted unless it contains a single
quote and no double quote; backslashes and the chosen quote are escaped.
Exact on printable-ASCII content (escaping of non-printables is outside the
modelled scope). -/
def pyReprStr (s : List Char) : List Char :=
  let q := if s.contains (Char.ofNat 39) && !(s.contains (Char.ofNat 34))
           then Char.ofNat 34 else Char.ofNat 39
  q :: s.flatMap (fun c => if c = '\\' || c = q then ['\\', c] else [c]) ++ [q]

mutual
/-- Python `repr` of a decoded JSON value, as `str()` renders container
elements.  Exact on printable-ASCII, float-free content; Python renders a
float as the shortest round-trip decimal of its IEEE double, which the
exact-decimal token prints as `<m>e<e>` instead — a divergence confined to
float formatting, never reached by the verified claims. -/
def pyRepr : TSToken → List Char
  | .str s => pyReprStr s.data
  | .num n => (toString n).data
  | .float m e => (toString m).data ++ 'e' :: (toString e).data
  | .bool b => if b then "True".data else "False".data
  | .null => "None".data
  | .nan => "nan".data
  | .inf neg => if neg then "-inf".data else "inf".data
  | .arr l => '[' :: pyReprList l ++ [']']
  | .obj o => Char.ofNat 123 :: pyReprObj o ++ [Char.ofNat 125]
/-- Comma-joined `repr`s of the elements of a nested list. -/
def pyReprList : TSList → List Char
  | .nil => []
  | .cons h .nil => pyRepr h
  | .cons h t => pyRepr h ++ ',' :: ' ' :: pyReprList t
/-- Comma-joined `key: value` renderings of the items of a nested dict. -/
def pyReprObj : TSObj → List Char
  | .nil => []
  | .cons k v .nil => pyReprStr k.data ++ ':' :: ' ' :: pyRepr v
  | .cons k v t => pyReprStr k.data ++ ':' :: ' ' :: pyRepr v ++ ',' :: ' ' :: pyReprObj t
end

/-- Python `str()` of a decoded JSON value: a string renders as itself,
everything else as its `repr`. -/
def pyStr : TSToken → List Char
  | .str s => s.data
  | t => pyRepr t

/-- `needle in <list>` for Python: some element equals the needle (a string
compares equal only to an equal string). -/
def tslContainsStr : TSList → String → Bool
  | .nil, _ => false
  | .cons h t, s => h == .str s || tslContainsStr t s

/-- `needle in <dict>` for Python: key membership. -/
def tsoHasKey : TSObj → String → Bool
  | .nil, _ => false
  | .cons k _ t, s => k == s || tsoHasKey t s

/-- The Python membership test `needle in x` on the container tokens. -/
def containsMem : TSToken → String → Bool
  | .arr l, s => tslContainsStr l s
  | .obj o, s => tsoHasKey o s
  | _, _ => false

/-- `parse_team_size_range` on a truthy list or dict token: there `in` is a
membership test (which does not raise), and the digits are then extracted
from `str(x)` with commas removed. -/
def containerRange (t : TSToken) : Int × Option Int :=
  if containsMem t "1,000+" || containsMem t "1000+" then (1000, none)
  else
    match findallDigits (removeCommas ⟨pyStr t⟩) with
    | [] => (0, some 0)
    | [n] => ((n : Int), some (n : Int))
    | n1 :: n2 :: _ => ((n1 : Int), some (n2 : Int))

/-- `parse_team_size_range`.  A falsy token (empty string, `0`, `0.0`,
`False`, `None`, `[]`, `{ }`) yields `(0, 0)`; on a truthy `int`, `float`,
`True`, `nan` or `inf` token the expression `'1,000+' in team_size_str`
raises `TypeError` (not iterable), modelled as `Except.error ()`; on a
truthy list or dict `in` is a membership test and the digit extraction
proceeds over `str()` of the value. -/
def parse_team_size_range : TSToken → Except Unit (Int × Option Int)
  | .str s => if s = "" then .ok (0, some 0) else .ok (strRange s)
  | .num n => if n = 0 then .ok (0, some 0) else .error ()
  | .float m _ => if m = 0 then .ok (0, some 0) else .error ()
  | .bool b => if b then .error () else .ok (0, some 0)
  | .null => .ok (0, some 0)
  | .nan => .error ()
  | .inf _ => .error ()
  | .arr l => if l = .nil then .ok (0, some 0) else .ok (containerRange (.arr l))
  | .obj o => if o = .nil then .ok (0, some 0) else .ok (containerRange (.obj o))

/-- `min_size <= company_size <= max_size`, with `none` standing for
`float('inf')`. -/
def inRange (size : Int) (r : Int × Option Int) : Bool :=
  r.1 ≤ size && (match r.2 with | none => true | some m => size ≤ m)

/-- The `for filter_size in filter_team_sizes` loop of
`matches_team_size_filter`: first range hit or `"5"`-special hit returns
`True`; a raising token aborts the whole call. -/
def tsLoop (size : Int) : List TSToken → Except Unit Bool
  | [] => .ok false
  | t :: rest =>
      match parse_team_size_range t with
      | .error e => .error e
      | .ok r =>
          if inRange size r then .ok true
          else if t == .str "5" && decide (5 ≤ size) then .ok true
          else tsLoop size rest

/-- `matches_team_size_filter(company_team_size, filter_team_sizes)`.
`company_team_size` is the record's `team_size` (`none` covers both an
absent key, defaulted to `0` by `company.get`, and a JSON `null`, defaulted
by `or 0`). -/
def matches_team_size_filter (company_team_size : Option Int)
    (filter_team_sizes : List TSToken) : Except Unit Bool :=
  if filter_team_sizes = [] then .ok true
  else tsLoop (company_team_size.getD 0) filter_team_sizes

/-!  Percent decoding and query-string splitting (`urllib.parse.unquote`,
`urlparse`, `parse_qs(..., keep_blank_values=True)`). -/

/-- Hex digit value, case-insensitive. -/
def hexVal (c : Char) : Option Nat :=
  if 48 ≤ c.toNat ∧ c.toNat ≤ 57 then some (c.toNat - 48)
  else if 65 ≤ c.toNat ∧ c.toNat ≤ 70 then some (c.toNat - 55)
  else if 97 ≤ c.toNat ∧ c.toNat ≤ 102 then some (c.toNat - 87)
  else none

/-- One pass of percent-decoding: each `%XY` hex pair becomes the character
with code `16*X + Y`; a `%` not followed by two hex digits is literal.
Models `urllib.parse.unquote` byte-wise (exact on ASCII). -/
def unquoteChars : List Char → List Char
  | [] => []
  | '%' :: a :: b :: rest =>
      match hexVal a, hexVal b with
      | some x, some y => Char.ofNat (16 * x + y) :: unquoteChars rest
      | _, _ => '%' :: unquoteChars (a :: b :: rest)
  | c :: rest => c :: unquoteChars rest

/-- `urllib.parse.unquote` on strings. -/
def unquote (s : String) : String :=
  ⟨unquoteChars s.data⟩

/-- Python `s.split(sep)` for a single-character separator. -/
def splitOnChar (sep : Char) : List Char → List (List Char)
  | [] => [[]]
  | c :: rest =>
      let r := splitOnChar sep rest
      if c = sep then [] :: r
      else
        match r with
        | [] => [[c]]
        | h :: t => (c :: h) :: t

/-- Python `s.split(sep, 1)` when the separator occurs: the parts before and
after its first occurrence; `none` when it does not occur. -/
def splitFirst (sep : Char) : List Char → Option (List Char × List Char)
  | [] => none
  | c :: rest =>
      if c = sep then some ([], rest)
      else (splitFirst sep rest).map (fun p => (c :: p.1, p.2))

/-- The query component of `urlparse(url)`: the fragment (everything from
the first `#`) is removed first, then the query is everything after the
first `?` of what remains.  (The WHATWG sanitisation newer CPython applies
first — removing every tab/CR/LF and stripping leading control characters
or spaces — is outside the modelled scope; no claim involves URLs carrying
such characters.) -/
def getQuery (url : String) : List Char :=
  let beforeFrag :=
    match splitFirst '#' url.data with
    | none => url.data
    | some p => p.1
  match splitFirst '?' beforeFrag with
  | none => []
  | some p => p.2

/-- A character of `scheme_chars` in `urllib.parse`: letters, digits and
`+`, `-`, `.`. -/
def schemeChar (c : Char) : Bool :=
  (65 ≤ c.toNat && c.toNat ≤ 90) || (97 ≤ c.toNat && c.toNat ≤ 122) ||
  isDigitChar c || c == '+' || c == '-' || c == '.'

/-- ASCII alphabetic. -/
def isAsciiAlpha (c : Char) : Bool :=
  (65 ≤ c.toNat && c.toNat ≤ 90) || (97 ≤ c.toNat && c.toNat ≤ 122)

/-- The scheme removal of `urlsplit`: when the text before the first `:` is
non-empty, starts with an ASCII letter and consists of scheme characters,
everything after that colon remains; otherwise the URL is unchanged. -/
def stripScheme (l : List Char) : List Char :=
  match splitFirst ':' l with
  | none => l
  | some p =>
      match p.1 with
      | [] => l
      | c :: rest => if isAsciiAlpha c && (c :: rest).all schemeChar then p.2 else l

/-- `_splitnetloc`: the authority of a URL whose scheme-stripped form starts
with `//`, running to the first `/`, `?` or `#`. -/
def netlocOf (l : List Char) : Option (List Char) :=
  match l with
  | '/' :: '/' :: rest =>
      some (rest.takeWhile (fun c => !(c == '/' || c == '?' || c == '#')))
  | _ => none

/-- The `Invalid IPv6 URL` ValueError of `urlsplit`: the authority contains
`[` without `]`, or `]` without `[`.  (The bracketed-host validation newer
CPython performs when both brackets are present is outside the modelled
scope.) -/
def invalidIPv6 (url : String) : Bool :=
  match netlocOf (stripScheme url.data) with
  | none => false
  | some nl =>
      (nl.contains '[' && !nl.contains ']') ||
      (nl.contains ']' && !nl.contains '[')

/-- `s.replace('+', ' ')` as done on each name and value by `parse_qsl`. -/
def plusSpace (l : List Char) : List Char :=
  l.map (fun c => if c = '+' then ' ' else c)

/-- Decoding of one `name=value` chunk by `parse_qsl` with
`keep_blank_values=True`: split at the first `=` (a chunk without `=` gets
the blank value), then `+` becomes space and percent-escapes are decoded in
both name and value. -/
def decodePair (nv : List Char) : String × String :=
  match splitFirst '=' nv with
  | none => (⟨unquoteChars (plusSpace nv)⟩, "")
  | some p => (⟨unquoteChars (plusSpace p.1)⟩, ⟨unquoteChars (plusSpace p.2)⟩)

/-- `parse_qs(qs, keep_blank_values=True)` as the ordered pair list it is
built from: split on `&`, skip empty chunks, decode each chunk.  The dict
view `params.get(key)` is recovered by filtering on the first component. -/
def parse_qs (qs : List Char) : List (String × String) :=
  ((splitOnChar '&' qs).filter (fun nv => !(nv == []))).map decodePair

/-- `params.get(key, [])`: the decoded values of `key`, in occurrence
order. -/
def getParamVals (params : List (String × String)) (key : String) : List String :=
  params.filterMap (fun p => if p.1 = key then some p.2 else none)

/-- `get_param(key)` of `parse_yc_url_filters`: the values of `key`,
percent-decoded once more (`[unquote(v) for v in values]`). -/
def get_param (params : List (String × String)) (key : String) : List String :=
  (getParamVals params key).map unquote

/-- `v.lower() in ['true', '1', 'yes']`. -/
def truthy (v : String) : Bool :=
  lowerS v == "true".data || lowerS v == "1".data || lowerS v == "yes".data

/-- `get_bool_param(key)`: `None` when the key is absent, else the truthiness
test on the first value (decoded once more by `get_param`). -/
def get_bool_param (params : List (String × String)) (key : String) : Option Bool :=
  ((getParamVals params key).head?).map (fun v => truthy (unquote v))

/-!  `json.loads`, modelled for array documents — the only shape
`parse_team_size_filter` can hand it (it only calls `json.loads` on text
whose first character is `[`).  Elements cover the full JSON value grammar:
strings with escapes (including `\uXXXX` and surrogate pairs), integers,
floats as exact decimals, `true`/`false`/`null`, the Python extensions
`NaN`/`Infinity`/`-Infinity`, and nested arrays and objects.  A document the
grammar rejects is `none`, which `parse_team_size_filter` turns into `[]`;
a string containing a lone surrogate (a Python string no `Char` can hold)
is also `none`, the one scope restriction of the model. -/

/-- JSON insignificant whitespace. -/
def jsonWsChar (c : Char) : Bool :=
  c == ' ' || c == '\t' || c == '\n' || c == '\r'

/-- Drop leading JSON whitespace. -/
def skipWs (l : List Char) : List Char :=
  l.dropWhile jsonWsChar

/-- Value of a two-character JSON string escape (`\uXXXX` is handled
separately in `parseJStrF`). -/
def escChar (e : Char) : Option Char :=
  if e == '"' then some '"'
  else if e == '\\' then some '\\'
  else if e == '/' then some '/'
  else if e == 'b' then some (Char.ofNat 8)
  else if e == 'f' then some (Char.ofNat 12)
  else if e == 'n' then some '\n'
  else if e == 'r' then some '\r'
  else if e == 't' then some '\t'
  else none

/-- Four hex digits, as in a `\uXXXX` escape. -/
def hex4 : List Char → Option (Nat × List Char)
  | a :: b :: c :: d :: rest =>
      match hexVal a, hexVal b, hexVal c, hexVal d with
      | some x1, some x2, some x3, some x4 =>
          some (((x1 * 16 + x2) * 16 + x3) * 16 + x4, rest)
      | _, _, _, _ => none
  | _ => none

/-- Parse the body of a JSON string (the opening quote already consumed):
escapes, `\uXXXX` with surrogate-pair combination, and — as `json.loads`
does in strict mode — rejection of raw control characters.  A lone
surrogate (which Python would keep in the string) is not representable in
`Char` and is rejected; fuel dominates the remaining length. -/
def parseJStrF : Nat → List Char → Option (List Char × List Char)
  | 0, _ => none
  | _, [] => none
  | fuel + 1, c :: rest =>
      if c = '"' then some ([], rest)
      else if c = '\\' then
        match rest with
        | [] => none
        | e :: rest2 =>
            if e = 'u' then
              match hex4 rest2 with
              | none => none
              | some (v, rest3) =>
                  if 0xD800 ≤ v ∧ v ≤ 0xDBFF then
                    match rest3 with
                    | '\\' :: 'u' :: rest4 =>
                        match hex4 rest4 with
                        | some (w, rest5) =>
                            if 0xDC00 ≤ w ∧ w ≤ 0xDFFF then
                              (parseJStrF fuel rest5).map (fun p =>
                                (Char.ofNat
                                  (0x10000 + (v - 0xD800) * 0x400 + (w - 0xDC00)) ::
                                    p.1, p.2))
                            else none
                        | none => none
                    | _ => none
                  else if 0xDC00 ≤ v ∧ v ≤ 0xDFFF then none
                  else (parseJStrF fuel rest3).map (fun p => (Char.ofNat v :: p.1, p.2))
            else
              match escChar e with
              | none => none
              | some ec => (parseJStrF fuel rest2).map (fun p => (ec :: p.1, p.2))
      else if c.toNat < 32 then none
      else (parseJStrF fuel rest).map (fun p => (c :: p.1, p.2))

/-- Split a leading run of ASCII digits. -/
def digitSpan (l : List Char) : List Char × List Char :=
  (l.takeWhile isDigitChar, l.dropWhile isDigitChar)

/-- A float token with the exact decimal value `± mant * 10 ^ e`. -/
def mkFloat (neg : Bool) (mant : List Char) (e : Int) : TSToken :=
  .float ((if neg then -1 else 1) * (digitsVal mant : Int)) e

/-- Build the token of a JSON number with no exponent part: a float when a
fraction was present, an int otherwise. -/
def finalizeNum (neg : Bool) (mant : List Char) (shift : Int) (isFloat : Bool)
    (rest : List Char) : Option (TSToken × List Char) :=
  if isFloat then some (mkFloat neg mant shift, rest)
  else some (.num ((if neg then -1 else 1) * (digitsVal mant : Int)), rest)

/-- Parse the optional exponent of a JSON number and build its token. -/
def parseJExp (neg : Bool) (mant : List Char) (shift : Int) (isFloat : Bool)
    (l : List Char) : Option (TSToken × List Char) :=
  match l with
  | c :: r =>
      if c = 'e' ∨ c = 'E' then
        let se := match r with
          | '+' :: r2 => ((1 : Int), r2)
          | '-' :: r2 => ((-1 : Int), r2)
          | _ => ((1 : Int), r)
        let ed := digitSpan se.2
        if ed.1 = [] then none
        else some (mkFloat neg mant (se.1 * (digitsVal ed.1 : Int) + shift), ed.2)
      else finalizeNum neg mant shift isFloat (c :: r)
  | [] => finalizeNum neg mant shift isFloat []

/-- Parse a JSON number: optional minus, integer part without redundant
leading zero, optional fraction, optional exponent.  A number with a
fraction or exponent is a Python float (exact-decimal token), a plain
integer a Python int, as `json.loads` produces. -/
def parseJNum (l : List Char) : Option (TSToken × List Char) :=
  let sp := match l with
    | '-' :: r => (true, r)
    | _ => (false, l)
  let ip := digitSpan sp.2
  if ip.1 = [] then none
  else if 1 < ip.1.length ∧ ip.1.headD '0' = '0' then none
  else
    match ip.2 with
    | '.' :: r =>
        let fp := digitSpan r
        if fp.1 = [] then none
        else parseJExp sp.1 (ip.1 ++ fp.1) (-(fp.1.length : Int)) true fp.2
    | r => parseJExp sp.1 ip.1 0 false r

/-- Dict update with Python semantics: an existing key keeps its position
and takes the new value, a new key is appended. -/
def objInsert (k : String) (v : TSToken) : List (String × TSToken) →
    List (String × TSToken)
  | [] => [(k, v)]
  | p :: rest => if p.1 = k then (p.1, v) :: rest else p :: objInsert k v rest

/-- Convert an element list to the nested-list type. -/
def tslOfList : List TSToken → TSList
  | [] => .nil
  | t :: ts => .cons t (tslOfList ts)

/-- Convert a key-value list to the nested-object type. -/
def tsoOfList : List (String × TSToken) → TSObj
  | [] => .nil
  | p :: ts => .cons p.1 p.2 (tsoOfList ts)

/-- Flatten a nested-list token back to a Lean list (used for the top-level
array document). -/
def tslToList : TSList → List TSToken
  | .nil => []
  | .cons h t => h :: tslToList t

mutual
/-- Parse one JSON value.  Fuel dominates the nesting depth (every recursive
call consumes at least one input character per unit of fuel). -/
def parseJVal : Nat → List Char → Option (TSToken × List Char)
  | 0, _ => none
  | fuel + 1, l =>
      match l with
      | '"' :: rest =>
          (parseJStrF (rest.length + 1) rest).map (fun p => (.str ⟨p.1⟩, p.2))
      | 't' :: 'r' :: 'u' :: 'e' :: rest => some (.bool true, rest)
      | 'f' :: 'a' :: 'l' :: 's' :: 'e' :: rest => some (.bool false, rest)
      | 'n' :: 'u' :: 'l' :: 'l' :: rest => some (.null, rest)
      | 'N' :: 'a' :: 'N' :: rest => some (.nan, rest)
      | 'I' :: 'n' :: 'f' :: 'i' :: 'n' :: 'i' :: 't' :: 'y' :: rest =>
          some (.inf false, rest)
      | '-' :: 'I' :: 'n' :: 'f' :: 'i' :: 'n' :: 'i' :: 't' :: 'y' :: rest =>
          some (.inf true, rest)
      | '[' :: rest =>
          match skipWs rest with
          | ']' :: r2 => some (.arr .nil, r2)
          | _ => parseJArrLoop fuel [] rest
      | c :: rest =>
          if c = Char.ofNat 123 then
            match skipWs rest with
            | c2 :: r2 =>
                if c2 = Char.ofNat 125 then some (.obj .nil, r2)
                else parseJObjLoop fuel [] (c2 :: r2)
            | [] => none
          else parseJNum (c :: rest)
      | [] => none
/-- The elements of a non-empty array: `value (',' value)* ']'`; `acc` holds
the elements read so far, in reverse. -/
def parseJArrLoop : Nat → List TSToken → List Char → Option (TSToken × List Char)
  | 0, _, _ => none
  | fuel + 1, acc, l =>
      match parseJVal fuel (skipWs l) with
      | none => none
      | some p =>
          match skipWs p.2 with
          | ']' :: r2 => some (.arr (tslOfList (p.1 :: acc).reverse), r2)
          | ',' :: r2 => parseJArrLoop fuel (p.1 :: acc) r2
          | _ => none
/-- The items of a non-empty object: `string ':' value (',' ...)* followed
by the closing brace`; duplicate keys collapse with Python dict
semantics. -/
def parseJObjLoop : Nat → List (String × TSToken) → List Char →
    Option (TSToken × List Char)
  | 0, _, _ => none
  | fuel + 1, acc, l =>
      match skipWs l with
      | '"' :: r =>
          match parseJStrF (r.length + 1) r with
          | none => none
          | some kp =>
              match skipWs kp.2 with
              | ':' :: r3 =>
                  match parseJVal fuel (skipWs r3) with
                  | none => none
                  | some vp =>
                      match skipWs vp.2 with
                      | c :: r5 =>
                          if c = Char.ofNat 125 then
                            some (.obj (tsoOfList (objInsert ⟨kp.1⟩ vp.1 acc)), r5)
                          else if c = ',' then
                            parseJObjLoop fuel (objInsert ⟨kp.1⟩ vp.1 acc) r5
                          else none
                      | [] => none
              | _ => none
      | _ => none
end

/-- `json.loads`, restricted to array documents (the only calls
`parse_team_size_filter` makes start with `[`): the whole input, up to
surrounding whitespace, must be one array value. -/
def jsonLoads (s : String) : Option (List TSToken) :=
  match parseJVal (2 * s.data.length + 2) (skipWs s.data) with
  | some p =>
      match p.1 with
      | .arr l => if skipWs p.2 = [] then some (tslToList l) else none
      | _ => none
  | none => none

/-- `parse_team_size_filter(team_size_param)` (lines 14-27): a value that
looks bracketed is `json.loads`-ed after one more `unquote`; a non-bracketed
value is wrapped, also after one more `unquote`; the bare `except` turns any
parse failure into `[]`. -/
def parse_team_size_filter (p : String) : List TSToken :=
  if p.data.head? = some '[' ∧ p.data.getLast? = some ']' then
    match jsonLoads (unquote p) with
    | some l => l
    | none => []
  else [.str (unquote p)]

/-!  Records and filter specs. -/

/-- One company record, with the attributes `filter_companies` and the
inline filter of `fetch_yc_companies` read.  String fields default to `''`
and list fields to `[]`, matching `company.get(key, default)`; `team_size`
is `none` for an absent or `null` value; the seven flag fields hold a JSON
boolean (`Sum.inl`) or a string (`Sum.inr`), `none` when absent. -/
structure Record where
  batch : String := ""
  industry : String := ""
  industries : List String := []
  regions : List String := []
  all_locations : String := ""
  status : String := ""
  tags : List String := []
  stage : String := ""
  team_size : Option Int := none
  top_company : Option (Bool ⊕ String) := none
  nonprofit : Option (Bool ⊕ String) := none
  isHiring : Option (Bool ⊕ String) := none
  app_video_public : Option (Bool ⊕ String) := none
  demo_day_video_public : Option (Bool ⊕ String) := none
  app_answers : Option (Bool ⊕ String) := none
  question_answers : Option (Bool ⊕ String) := none
deriving DecidableEq, Repr

/-- The cleaned filter dict produced by `parse_yc_url_filters`.  `none`
models a key that is absent from the dict (the clean-up step removes keys
whose value is `None` or `[]`, so the predicate only ever sees the keys that
are present). -/
structure FilterSpec where
  batches : Option (List String) := none
  industries : Option (List String) := none
  regions : Option (List String) := none
  statuses : Option (List String) := none
  tags : Option (List String) := none
  stages : Option (List String) := none
  team_sizes : Option (List TSToken) := none
  top_company : Option Bool := none
  nonprofit : Option Bool := none
  is_hiring : Option Bool := none
  app_video_public : Option Bool := none
  demo_day_video_public : Option Bool := none
  app_answers : Option Bool := none
  question_answers : Option Bool := none
deriving DecidableEq

/-- Normalisation to an optional constraint: `[]` and an absent key are the
same thing after the clean-up step of the parsers. -/
def nonemptyOpt {α : Type} [DecidableEq α] (l : List α) : Option (List α) :=
  if l = [] then none else some l

/-- `parse_yc_url_filters(url)` (lines 29-108): parse the query string,
build the filter dict, handle `team_size` specially, and drop empty
entries. -/
def parse_yc_url_filters (url : String) : FilterSpec :=
  let params := parse_qs (getQuery url)
  let team : List TSToken :=
    match (getParamVals params "team_size").head? with
    | none => []
    | some raw => parse_team_size_filter raw
  { batches := nonemptyOpt (get_param params "batch")
    industries := nonemptyOpt (get_param params "industry")
    regions := nonemptyOpt (get_param params "region")
    statuses := nonemptyOpt (get_param params "status")
    tags := nonemptyOpt (get_param params "tags")
    stages := nonemptyOpt (get_param params "stage")
    team_sizes := nonemptyOpt team
    top_company := get_bool_param params "top_company"
    nonprofit := get_bool_param params "nonprofit"
    is_hiring := get_bool_param params "isHiring"
    app_video_public := get_bool_param params "app_video_public"
    demo_day_video_public := get_bool_param params "demo_day_video_public"
    app_answers := get_bool_param params "app_answers"
    question_answers := get_bool_param params "question_answers" }

/-- `urlparse(url).query` with the error path of `urlsplit` preserved:
error on an invalid-IPv6 authority, else the query component.  (Scheme and
netloc splitting never consume a `?` or `#`, so on success the query is
exactly `getQuery url`.) -/
def urlparseQuery (url : String) : Except Unit (List Char) :=
  if invalidIPv6 url then .error () else .ok (getQuery url)

/-- `parse_yc_url_filters` with `urlparse`'s error path preserved: a URL
whose authority has unbalanced brackets raises ValueError out of the
function; any other URL yields the cleaned FilterSpec of
`parse_yc_url_filters`. -/
def parse_yc_url_filtersE (url : String) : Except Unit FilterSpec :=
  match urlparseQuery url with
  | .error e => .error e
  | .ok _ => .ok (parse_yc_url_filters url)

/-!  The per-record predicate of `filter_companies` (lines 178-299).  Each
`continue` of the Python loop is an early rejection; the guards below are
the same checks with the polarity made positive. -/

/-- Batch check: `any(batch.lower() in company_batch.lower() ...)`;
vacuously true when the `batches` key is absent. -/
def batchPass (c : Record) (f : FilterSpec) : Bool :=
  match f.batches with
  | none => true
  | some l => anyTokCI l c.batch

/-- Industry check: the singular `industry` field first, then (only when
that failed and the `industries` list is non-empty) the `industries`
list. -/
def industryPass (c : Record) (f : FilterSpec) : Bool :=
  match f.industries with
  | none => true
  | some l =>
      let m := anyTokCI l c.industry
      if !m && !c.industries.isEmpty then anyTokCIList l c.industries else m

/-- Region check: the `regions` list first, then the `all_locations`
string. -/
def regionPass (c : Record) (f : FilterSpec) : Bool :=
  match f.regions with
  | none => true
  | some l =>
      let m := anyTokCIList l c.regions
      if m then true else anyTokCI l c.all_locations

/-- Status check. -/
def statusPass (c : Record) (f : FilterSpec) : Bool :=
  match f.statuses with
  | none => true
  | some l => anyTokCI l c.status

/-- Tags check. -/
def tagsPass (c : Record) (f : FilterSpec) : Bool :=
  match f.tags with
  | none => true
  | some l => anyTokCIList l c.tags

/-- Stage check. -/
def stagePass (c : Record) (f : FilterSpec) : Bool :=
  match f.stages with
  | none => true
  | some l => anyTokCI l c.stage

/-- The flag coercion of the boolean-filter loop: `company.get(key, False)`
then `lower() in ['true', '1', 'yes']` when the value is a string. -/
def coerceBool : Option (Bool ⊕ String) → Bool
  | none => false
  | some (Sum.inl b) => b
  | some (Sum.inr s) => truthy s

/-- One boolean filter: skipped when absent, otherwise
`filter_value != company_value` rejects. -/
def boolCheck (fv : Option Bool) (rv : Option (Bool ⊕ String)) : Bool :=
  match fv with
  | none => true
  | some b => b == coerceBool rv

/-- The `boolean_filters` loop over the seven flags, in source order. -/
def boolPass (c : Record) (f : FilterSpec) : Bool :=
  boolCheck f.top_company c.top_company &&
  boolCheck f.nonprofit c.nonprofit &&
  boolCheck f.is_hiring c.isHiring &&
  boolCheck f.app_video_public c.app_video_public &&
  boolCheck f.demo_day_video_public c.demo_day_video_public &&
  boolCheck f.app_answers c.app_answers &&
  boolCheck f.question_answers c.question_answers

/-- The body of the `for company in companies` loop of `filter_companies`:
`ok true` keeps the record, `ok false` is a `continue`, `error` is the
uncaught `TypeError` of the team-size comparison. -/
def recordMatches (c : Record) (f : FilterSpec) : Except Unit Bool :=
  if batchPass c f then
    if industryPass c f then
      if regionPass c f then
        if statusPass c f then
          if tagsPass c f then
            if stagePass c f then
              match f.team_sizes with
              | none => .ok (boolPass c f)
              | some ts =>
                  match matches_team_size_filter c.team_size ts with
                  | .error e => .error e
                  | .ok tok => if tok then .ok (boolPass c f) else .ok false
            else .ok false
          else .ok false
        else .ok false
      else .ok false
    else .ok false
  else .ok false

/-- `filter_companies(companies, filters)`: the accepted records in input
order; an exception raised while processing any record aborts the call. -/
def filter_companies (companies : List Record) (f : FilterSpec) :
    Except Unit (List Record) :=
  match companies with
  | [] => .ok []
  | c :: rest =>
      match recordMatches c f with
      | .error e => .error e
      | .ok true => (filter_companies rest f).map (fun l => c :: l)
      | .ok false => filter_companies rest f

/-!  The inline filter of `fetch_yc_companies` (`yc_outreach_tool.py`,
lines 292-327): only the batch and the singular-industry checks, every
other category is ignored. -/

/-- The acceptance test of the inline loop of `fetch_yc_companies`. -/
def outreachAccept (c : Record) (f : FilterSpec) : Bool :=
  (match f.batches with
   | none => true
   | some l => anyTokCI l c.batch) &&
  (match f.industries with
   | none => true
   | some l => anyTokCI l c.industry)

/-- The filtering pass of `fetch_yc_companies` (its fetch and error handling
are out of scope). -/
def fetch_yc_companies_filter (companies : List Record) (f : FilterSpec) :
    List Record :=
  companies.filter (fun c => outreachAccept c f)

deriving instance DecidableEq for Except

/-!  Helper lemmas. -/

lemma anyTokCI_eq_true {toks : List String} {field : String} :
    anyTokCI toks field = true ↔ ∃ t ∈ toks, tokInCI t field = true := by
  simp [anyTokCI, List.any_eq_true]

lemma anyTokCIList_eq_true {toks fields : List String} :
    anyTokCIList toks fields = true ↔ ∃ t ∈ toks, ∃ s ∈ fields, tokInCI t s = true := by
  simp [anyTokCIList, List.any_eq_true]

lemma batchPass_iff (c : Record) (f : FilterSpec) :
    batchPass c f = true ↔ ∀ l, f.batches = some l → ∃ t ∈ l, tokInCI t c.batch = true := by
  cases h : f.batches <;> simp [batchPass, h, anyTokCI, List.any_eq_true]

lemma industryPass_iff (c : Record) (f : FilterSpec) :
    industryPass c f = true ↔
      ∀ l, f.industries = some l →
        ((∃ t ∈ l, tokInCI t c.industry = true) ∨
         (∃ t ∈ l, ∃ s ∈ c.industries, tokInCI t s = true)) := by
  cases h : f.industries with
  | none => simp [industryPass, h]
  | some l =>
      simp only [industryPass, h, Option.some.injEq, forall_eq']
      cases hm : anyTokCI l c.industry with
      | true =>
          have := anyTokCI_eq_true.mp hm
          simp [hm, this]
      | false =>
          have hm' : ¬ ∃ t ∈ l, tokInCI t c.industry = true := by
            rw [← anyTokCI_eq_true, hm]; simp
          by_cases hi : c.industries = []
          · simp [hm, hm', hi, anyTokCIList]
          · have hne : c.industries.isEmpty = false := by
              simpa [List.isEmpty_iff] using hi
            simp [hm, hm', hne, anyTokCIList_eq_true]

lemma regionPass_iff (c : Record) (f : FilterSpec) :
    regionPass c f = true ↔
      ∀ l, f.regions = some l →
        ((∃ t ∈ l, ∃ s ∈ c.regions, tokInCI t s = true) ∨
         (∃ t ∈ l, tokInCI t c.all_locations = true)) := by
  cases h : f.regions with
  | none => simp [regionPass, h]
  | some l =>
      simp only [regionPass, h, Option.some.injEq, forall_eq']
      cases hm : anyTokCIList l c.regions with
      | true =>
          have := anyTokCIList_eq_true.mp hm
          simp [hm, this]
      | false =>
          have hm' : ¬ ∃ t ∈ l, ∃ s ∈ c.regions, tokInCI t s = true := by
            rw [← anyTokCIList_eq_true, hm]; simp
          simp [hm, hm', ← anyTokCI_eq_true]

lemma statusPass_iff (c : Record) (f : FilterSpec) :
    statusPass c f = true ↔ ∀ l, f.statuses = some l → ∃ t ∈ l, tokInCI t c.status = true := by
  cases h : f.statuses <;> simp [statusPass, h, anyTokCI, List.any_eq_true]

lemma tagsPass_iff (c : Record) (f : FilterSpec) :
    tagsPass c f = true ↔
      ∀ l, f.tags = some l → ∃ t ∈ l, ∃ s ∈ c.tags, tokInCI t s = true := by
  cases h : f.tags <;> simp [tagsPass, h, anyTokCIList, List.any_eq_true]

lemma stagePass_iff (c : Record) (f : FilterSpec) :
    stagePass c f = true ↔ ∀ l, f.stages = some l → ∃ t ∈ l, tokInCI t c.stage = true := by
  cases h : f.stages <;> simp [stagePass, h, anyTokCI, List.any_eq_true]

lemma boolCheck_iff (fv : Option Bool) (rv : Option (Bool ⊕ String)) :
    boolCheck fv rv = true ↔ ∀ b, fv = some b → coerceBool rv = b := by
  cases fv with
  | none => simp [boolCheck]
  | some b =>
      simp only [boolCheck, beq_iff_eq, Option.some.injEq, forall_eq']
      exact eq_comm

lemma boolPass_iff (c : Record) (f : FilterSpec) :
    boolPass c f = true ↔
      ((∀ b, f.top_company = some b → coerceBool c.top_company = b) ∧
       (∀ b, f.nonprofit = some b → coerceBool c.nonprofit = b) ∧
       (∀ b, f.is_hiring = some b → coerceBool c.isHiring = b) ∧
       (∀ b, f.app_video_public = some b → coerceBool c.app_video_public = b) ∧
       (∀ b, f.demo_day_video_public = some b → coerceBool c.demo_day_video_public = b) ∧
       (∀ b, f.app_answers = some b → coerceBool c.app_answers = b) ∧
       (∀ b, f.question_answers = some b → coerceBool c.question_answers = b)) := by
  simp [boolPass, Bool.and_eq_true, boolCheck_iff, and_assoc]

lemma recordMatches_eq_ok_true (c : Record) (f : FilterSpec) :
    recordMatches c f = .ok true ↔
      (batchPass c f = true ∧ industryPass c f = true ∧ regionPass c f = true ∧
       statusPass c f = true ∧ tagsPass c f = true ∧ stagePass c f = true ∧
       (∀ ts, f.team_sizes = some ts →
          matches_team_size_filter c.team_size ts = .ok true) ∧
       boolPass c f = true) := by
  unfold recordMatches
  cases hb : batchPass c f <;> cases hi : industryPass c f <;>
    cases hr : regionPass c f <;> cases hs : statusPass c f <;>
    cases ht : tagsPass c f <;> cases hg : stagePass c f
  all_goals try simp
  cases hts : f.team_sizes with
  | none => simp
  | some ts =>
      cases hm : matches_team_size_filter c.team_size ts with
      | error e => cases e; simp [hm]
      | ok b => cases b <;> simp [hm]

lemma filter_one_ok (c : Record) (f : FilterSpec) :
    filter_companies [c] f = .ok [c] ↔ recordMatches c f = .ok true := by
  cases h : recordMatches c f with
  | error e => simp [filter_companies, h]
  | ok b => cases b <;> simp [filter_companies, h, Except.map]

/-- C1: on a one-record list, `filter_companies` keeps the record iff it
satisfies every active filter category: categories are AND-ed, the tokens of
one category are OR-ed, and for batch / status / stage a token matches by
case-insensitive substring containment in the record's field. -/
theorem C1_filter_matches_iff (c : Record) (f : FilterSpec) :
    filter_companies [c] f = .ok [c] ↔
      ((∀ l, f.batches = some l → ∃ t ∈ l, tokInCI t c.batch = true) ∧
       (∀ l, f.industries = some l →
          ((∃ t ∈ l, tokInCI t c.industry = true) ∨
           (∃ t ∈ l, ∃ s ∈ c.industries, tokInCI t s = true))) ∧
       (∀ l, f.regions = some l →
          ((∃ t ∈ l, ∃ s ∈ c.regions, tokInCI t s = true) ∨
           (∃ t ∈ l, tokInCI t c.all_locations = true))) ∧
       (∀ l, f.statuses = some l → ∃ t ∈ l, tokInCI t c.status = true) ∧
       (∀ l, f.tags = some l → ∃ t ∈ l, ∃ s ∈ c.tags, tokInCI t s = true) ∧
       (∀ l, f.stages = some l → ∃ t ∈ l, tokInCI t c.stage = true) ∧
       (∀ ts, f.team_sizes = some ts →
          matches_team_size_filter c.team_size ts = .ok true) ∧
       (∀ b, f.top_company = some b → coerceBool c.top_company = b) ∧
       (∀ b, f.nonprofit = some b → coerceBool c.nonprofit = b) ∧
       (∀ b, f.is_hiring = some b → coerceBool c.isHiring = b) ∧
       (∀ b, f.app_video_public = some b → coerceBool c.app_video_public = b) ∧
       (∀ b, f.demo_day_video_public = some b → coerceBool c.demo_day_video_public = b) ∧
       (∀ b, f.app_answers = some b → coerceBool c.app_answers = b) ∧
       (∀ b, f.question_answers = some b → coerceBool c.question_answers = b)) := by
  rw [filter_one_ok, recordMatches_eq_ok_true]
  rw [batchPass_iff, industryPass_iff, regionPass_iff, statusPass_iff,
    tagsPass_iff, stagePass_iff, boolPass_iff]

lemma parse_range_str_ok (s : String) :
    ∃ r, parse_team_size_range (.str s) = .ok r := by
  by_cases h : s = ""
  · exact ⟨(0, some 0), by simp [parse_team_size_range, h]⟩
  · exact ⟨strRange s, by simp [parse_team_size_range, h]⟩

lemma tsLoop_str_no_error (size : Int) (ts : List TSToken)
    (h : ∀ t ∈ ts, ∃ s, t = .str s) : ∃ b, tsLoop size ts = .ok b := by
  induction ts with
  | nil => exact ⟨false, rfl⟩
  | cons t rest ih =>
      obtain ⟨s, rfl⟩ := h t (by simp)
      obtain ⟨r, hr⟩ := parse_range_str_ok s
      simp only [tsLoop, hr]
      by_cases h1 : inRange size r = true
      · exact ⟨true, by simp [h1]⟩
      · by_cases h2 : (TSToken.str s == TSToken.str "5" && decide (5 ≤ size)) = true
        · exact ⟨true, by simp [h1, h2]⟩
        · obtain ⟨b, hb⟩ := ih (fun t ht => h t (by simp [ht]))
          exact ⟨b, by simp [h1, h2, hb]⟩

lemma matches_ts_str_ok (n : Option Int) (ts : List TSToken)
    (h : ∀ t ∈ ts, ∃ s, t = .str s) :
    ∃ b, matches_team_size_filter n ts = .ok b := by
  unfold matches_team_size_filter
  split
  · exact ⟨true, rfl⟩
  · exact tsLoop_str_no_error _ ts h

/-- C2 counterexample: both functions can raise.  `urlparse` raises
`ValueError('Invalid IPv6 URL')` on the unbalanced-bracket authority of
`http://[x?batch=a`, so the exception propagates out of
`parse_yc_url_filters`; and the URL `?team_size=[5]` parses (as the code's
`json.loads` does) to the integer token `5`, whose matching evaluates
`'1,000+' in 5` and raises a `TypeError` out of the per-record matching of
`filter_companies`. -/
theorem C2_counterexample :
    parse_yc_url_filtersE "http://[x?batch=a" = .error () ∧
    (parse_yc_url_filters
        "https://www.ycombinator.com/companies?team_size=[5]").team_sizes =
      some [.num 5] ∧
    recordMatches {} (parse_yc_url_filters
        "https://www.ycombinator.com/companies?team_size=[5]") = .error () :=
  ⟨by decide, by decide, by decide⟩

/-- C2 (amended): `parse_yc_url_filters` raises exactly `urlparse`'s
`Invalid IPv6 URL` ValueError — on URLs whose authority has unbalanced
brackets — and returns normally on every other URL; and per-record matching
returns normally whenever every parsed team-size token is a string — the
shape every documented team-size filter has.  (A team-size list containing
a JSON integer, reachable from a URL, makes the Python code raise.) -/
theorem C2_no_exception :
    (∀ url : String, invalidIPv6 url = false →
        parse_yc_url_filtersE url = .ok (parse_yc_url_filters url)) ∧
    (∀ url : String, invalidIPv6 url = true →
        parse_yc_url_filtersE url = .error ()) ∧
    (∀ (c : Record) (f : FilterSpec),
        (∀ ts, f.team_sizes = some ts → ∀ t ∈ ts, ∃ s, t = TSToken.str s) →
        ∃ b, recordMatches c f = .ok b) := by
  refine ⟨?_, ?_, ?_⟩
  · intro url h
    simp [parse_yc_url_filtersE, urlparseQuery, h]
  · intro url h
    simp [parse_yc_url_filtersE, urlparseQuery, h]
  · intro c f h
    unfold recordMatches
    cases hb : batchPass c f <;> cases hi : industryPass c f <;>
      cases hr : regionPass c f <;> cases hs : statusPass c f <;>
      cases ht : tagsPass c f <;> cases hg : stagePass c f
    all_goals try exact ⟨false, rfl⟩
    cases hts : f.team_sizes with
    | none => exact ⟨boolPass c f, by simp⟩
    | some ts =>
        obtain ⟨b2, hb2⟩ := matches_ts_str_ok c.team_size ts (h ts hts)
        cases b2
        · exact ⟨false, by simp [hb2]⟩
        · exact ⟨boolPass c f, by simp [hb2]⟩

/-- C2 witness: the parse clause at a well-formed URL, and the matching
clause at a filter whose team-size list holds two string tokens. -/
theorem C2_no_exception_witness :
    parse_yc_url_filtersE "https://www.ycombinator.com/companies?batch=W25" =
      .ok (parse_yc_url_filters "https://www.ycombinator.com/companies?batch=W25") ∧
    ∃ b, recordMatches {}
        { team_sizes := some [TSToken.str "5", TSToken.str "1,000+"] } =
      Except.ok b :=
  ⟨C2_no_exception.1 "https://www.ycombinator.com/companies?batch=W25" (by decide),
   C2_no_exception.2.2 {}
     { team_sizes := some [TSToken.str "5", TSToken.str "1,000+"] }
     (by
       intro ts hts t ht
       rw [Option.some.injEq] at hts
       subst hts
       simp only [List.mem_cons, List.mem_singleton, List.not_mem_nil, or_false] at ht
       rcases ht with h1 | h1 <;> exact ⟨_, h1⟩)⟩

lemma parse_range_str (s : String) :
    parse_team_size_range (.str s) = .ok (strRange s) := by
  by_cases h : s = ""
  · subst h; decide
  · simp [parse_team_size_range, h]

lemma tsLoop_str (size : Int) (toks : List String) :
    tsLoop size (toks.map TSToken.str) =
      .ok (toks.any fun t =>
        inRange size (strRange t) || (t == "5" && decide (5 ≤ size))) := by
  induction toks with
  | nil => rfl
  | cons t rest ih =>
      simp only [List.map_cons, tsLoop, parse_range_str, List.any_cons]
      by_cases h1 : inRange size (strRange t) = true
      · simp [h1]
      · by_cases h2 : t = "5"
        · subst h2
          by_cases hs : decide (5 ≤ size) = true
          · simp [h1, hs]
          · simp [h1, hs, ih]
        · have hbeq : (TSToken.str t == TSToken.str "5") = false := by
            simp [h2]
          have hbeq2 : (t == "5") = false := by simp [h2]
          simp [h1, hbeq, hbeq2, ih]

lemma matches_ts_str (n : Option Int) (toks : List String) :
    matches_team_size_filter n (toks.map TSToken.str) =
      .ok (toks.isEmpty || toks.any fun t =>
        inRange (n.getD 0) (strRange t) || (t == "5" && decide (5 ≤ n.getD 0))) := by
  unfold matches_team_size_filter
  by_cases h : toks = []
  · subst h; simp
  · have hne : toks.map TSToken.str ≠ [] := by simpa using h
    rw [if_neg hne, tsLoop_str]
    have : toks.isEmpty = false := by simpa [List.isEmpty_iff] using h
    simp [this]

lemma isSubstrL_subset {nd hy : List Char} (h : isSubstrL nd hy = true) :
    ∀ c ∈ nd, c ∈ hy := by
  simp only [isSubstrL, List.any_eq_true, List.mem_range] at h
  obtain ⟨i, _, hpre⟩ := h
  intro c hc
  have hp : nd <+: hy.drop i := List.isPrefixOf_iff_prefix.mp hpre
  exact List.drop_subset i hy (hp.subset hc)

lemma runsAux_digits (l : List Char) (hd : ∀ c ∈ l, isDigitChar c = true)
    (acc : Nat) :
    runsAux l (some acc) =
      [l.foldl (fun n c => 10 * n + (c.toNat - 48)) acc] := by
  induction l generalizing acc with
  | nil => rfl
  | cons c rest ih =>
      have hc : isDigitChar c = true := hd c (by simp)
      simp only [runsAux, hc, if_pos, Option.getD_some, List.foldl_cons]
      exact ih (fun x hx => hd x (by simp [hx])) _

lemma findallDigits_all (s : String) (h1 : s.data ≠ [])
    (hd : ∀ c ∈ s.data, isDigitChar c = true) :
    findallDigits s = [digitsVal s.data] := by
  unfold findallDigits digitsVal
  cases hl : s.data with
  | nil => exact absurd hl h1
  | cons c rest =>
      have hc : isDigitChar c = true := hd c (by simp [hl])
      simp only [runsAux, hc, if_pos, List.foldl_cons]
      rw [runsAux_digits rest (fun x hx => hd x (by simp [hl, hx]))]
      simp

/-- C3: team-size matching semantics.  A record passes a string-token filter
list iff the list is empty or its effective size falls in some token's
parsed range or the token is the literal `"5"` and the size is at least 5;
`"1,000+"` parses to `(1000, ∞)`; a bare number `k` (other than `"5"`)
parses to the closed range `(k, k)`; the token `"5"` accepts exactly the
sizes `≥ 5` (so 4 is rejected, 5 and 10000 accepted); `"1,000+"` accepts
exactly the sizes `≥ 1000` (so 1000 accepted, 999 rejected); the empty
filter list always passes. -/
theorem C3_team_size_semantics :
    (∀ (n : Option Int) (toks : List String),
        matches_team_size_filter n (toks.map TSToken.str) = .ok true ↔
          (toks = [] ∨ ∃ t ∈ toks,
            (inRange (n.getD 0) (strRange t) = true ∨ (t = "5" ∧ 5 ≤ n.getD 0)))) ∧
    strRange "1,000+" = (1000, none) ∧
    (∀ s : String, s.data ≠ [] → (∀ ch ∈ s.data, isDigitChar ch = true) →
        s ≠ "5" →
        strRange s = ((digitsVal s.data : Int), some ((digitsVal s.data : Int)))) ∧
    (∀ n : Int, matches_team_size_filter (some n) [TSToken.str "5"] =
        .ok (decide (5 ≤ n))) ∧
    matches_team_size_filter (some 4) [TSToken.str "5"] = .ok false ∧
    matches_team_size_filter (some 5) [TSToken.str "5"] = .ok true ∧
    matches_team_size_filter (some 10000) [TSToken.str "5"] = .ok true ∧
    (∀ n : Int, matches_team_size_filter (some n) [TSToken.str "1,000+"] =
        .ok (decide (1000 ≤ n))) ∧
    matches_team_size_filter (some 1000) [TSToken.str "1,000+"] = .ok true ∧
    matches_team_size_filter (some 999) [TSToken.str "1,000+"] = .ok false ∧
    (∀ n : Option Int, matches_team_size_filter n [] = .ok true) := by
  refine ⟨?_, by decide, ?_, ?_, by decide, by decide, by decide, ?_, by decide, by decide, fun n => rfl⟩
  · intro n toks
    rw [matches_ts_str]
    simp [List.isEmpty_iff, List.any_eq_true]
  · intro s h1 hd hne5
    have hplus : isSubstrL "1,000+".data s.data = false := by
      cases h : isSubstrL "1,000+".data s.data with
      | false => rfl
      | true =>
          exact absurd (hd '+' (isSubstrL_subset h '+' (by decide))) (by decide)
    have hplus2 : isSubstrL "1000+".data s.data = false := by
      cases h : isSubstrL "1000+".data s.data with
      | false => rfl
      | true =>
          exact absurd (hd '+' (isSubstrL_subset h '+' (by decide))) (by decide)
    have hrc : removeCommas s = s := by
      show String.mk (s.data.filter fun c => !(c == ',')) = s
      rw [List.filter_eq_self.mpr]
      intro a ha
      have : a ≠ ',' := by
        intro heq
        exact absurd (hd a ha) (by rw [heq]; decide)
      simpa using this
    unfold strRange
    rw [hplus, hplus2, hrc, findallDigits_all s h1 hd]
    simp
  · intro n
    have h5 : strRange "5" = (5, some 5) := by decide
    rw [show ([TSToken.str "5"] : List TSToken) = ["5"].map TSToken.str from rfl,
      matches_ts_str]
    simp only [h5, Option.getD_some, List.isEmpty_cons, List.any_cons, List.any_nil]
    by_cases h : (5 : Int) ≤ n
    · simp [inRange, h]
    · simp [inRange, h]
  · intro n
    have h1000 : strRange "1,000+" = (1000, none) := by decide
    rw [show ([TSToken.str "1,000+"] : List TSToken) = ["1,000+"].map TSToken.str from rfl,
      matches_ts_str]
    simp only [h1000, Option.getD_some, List.isEmpty_cons, List.any_cons, List.any_nil]
    have hne : ("1,000+" == "5") = false := by decide
    by_cases h : (1000 : Int) ≤ n
    · simp [inRange, h, hne]
    · simp [inRange, h, hne]

/-- C3 witness: the bare-number clause evaluated at the token `"42"`. -/
theorem C3_team_size_semantics_witness :
    strRange "42" = ((digitsVal "42".data : Int), some ((digitsVal "42".data : Int))) :=
  C3_team_size_semantics.2.2.1 "42" (by decide) (by decide) (by decide)

/-- The query keys `parse_yc_url_filters` recognises. -/
def recognizedKeys : List String :=
  ["batch", "industry", "region", "status", "tags", "stage", "team_size",
   "top_company", "nonprofit", "isHiring", "app_video_public",
   "demo_day_video_public", "app_answers", "question_answers"]

lemma getParamVals_of_unrecognized (url : String) (key : String)
    (hkey : key ∈ recognizedKeys)
    (h : ∀ p ∈ parse_qs (getQuery url), p.1 ∉ recognizedKeys) :
    getParamVals (parse_qs (getQuery url)) key = [] := by
  rw [getParamVals, List.filterMap_eq_nil_iff]
  intro p hp
  rw [if_neg]
  intro heq
  exact h p hp (heq ▸ hkey)

lemma parse_empty_of_unrecognized (url : String)
    (h : ∀ p ∈ parse_qs (getQuery url), p.1 ∉ recognizedKeys) :
    parse_yc_url_filters url = {} := by
  have h1 := getParamVals_of_unrecognized url "batch" (by decide) h
  have h2 := getParamVals_of_unrecognized url "industry" (by decide) h
  have h3 := getParamVals_of_unrecognized url "region" (by decide) h
  have h4 := getParamVals_of_unrecognized url "status" (by decide) h
  have h5 := getParamVals_of_unrecognized url "tags" (by decide) h
  have h6 := getParamVals_of_unrecognized url "stage" (by decide) h
  have h7 := getParamVals_of_unrecognized url "team_size" (by decide) h
  have h8 := getParamVals_of_unrecognized url "top_company" (by decide) h
  have h9 := getParamVals_of_unrecognized url "nonprofit" (by decide) h
  have h10 := getParamVals_of_unrecognized url "isHiring" (by decide) h
  have h11 := getParamVals_of_unrecognized url "app_video_public" (by decide) h
  have h12 := getParamVals_of_unrecognized url "demo_day_video_public" (by decide) h
  have h13 := getParamVals_of_unrecognized url "app_answers" (by decide) h
  have h14 := getParamVals_of_unrecognized url "question_answers" (by decide) h
  simp [parse_yc_url_filters, get_param, get_bool_param, nonemptyOpt,
    h1, h2, h3, h4, h5, h6, h7, h8, h9, h10, h11, h12, h13, h14]

/-- C4 counterexample: `http://[x` is a URL with no query string, yet
`parse_yc_url_filters` does not return a FilterSpec at all — `urlparse`
raises `ValueError('Invalid IPv6 URL')` on its unbalanced-bracket
authority. -/
theorem C4_counterexample :
    getQuery "http://[x" = [] ∧
    parse_yc_url_filtersE "http://[x" = .error () :=
  ⟨by decide, by decide⟩

/-- C4 (amended): every URL with a well-formed (balanced-bracket) authority
whose query pairs carry none of the recognised filter keys — including URLs
with no query string — parses to the FilterSpec with zero active keys, and
every record matches that empty FilterSpec; a URL with an unbalanced-bracket
authority instead raises ValueError out of `urlparse`. -/
theorem C4_empty_spec_matches_all :
    (∀ url : String, invalidIPv6 url = false →
        (∀ p ∈ parse_qs (getQuery url), p.1 ∉ recognizedKeys) →
        parse_yc_url_filtersE url = .ok {}) ∧
    (∀ c : Record, recordMatches c {} = .ok true) := by
  constructor
  · intro url hv h
    simp [parse_yc_url_filtersE, urlparseQuery, hv, parse_empty_of_unrecognized url h]
  · intro c
    rfl

/-- C4 witness: the theorem applied to a URL with no query string and to the
default record. -/
theorem C4_witness :
    parse_yc_url_filtersE "https://www.ycombinator.com/companies" = .ok {} ∧
    recordMatches {} ({} : FilterSpec) = .ok true :=
  ⟨C4_empty_spec_matches_all.1 "https://www.ycombinator.com/companies"
     (by decide) (by decide),
   C4_empty_spec_matches_all.2 {}⟩

/-- C5: the seven boolean filter parameters.  Parsing takes only the first
occurrence of the key and maps it through the case-insensitive
`['true', '1', 'yes']` test (`none` when the key is absent, `some false` for
any other present value; witnessed by the concrete URLs).  Matching compares
the filter boolean with the record's coerced flag: a string-valued flag goes
through the same truthiness test, an absent flag coerces to `false`, and a
record with string `"true"` behaves exactly like one with boolean `true`. -/
theorem C5_boolean_filters :
    (∀ url : String,
        (parse_yc_url_filters url).top_company =
          ((getParamVals (parse_qs (getQuery url)) "top_company").head?).map
            (fun v => truthy (unquote v)) ∧
        (parse_yc_url_filters url).nonprofit =
          ((getParamVals (parse_qs (getQuery url)) "nonprofit").head?).map
            (fun v => truthy (unquote v)) ∧
        (parse_yc_url_filters url).is_hiring =
          ((getParamVals (parse_qs (getQuery url)) "isHiring").head?).map
            (fun v => truthy (unquote v)) ∧
        (parse_yc_url_filters url).app_video_public =
          ((getParamVals (parse_qs (getQuery url)) "app_video_public").head?).map
            (fun v => truthy (unquote v)) ∧
        (parse_yc_url_filters url).demo_day_video_public =
          ((getParamVals (parse_qs (getQuery url)) "demo_day_video_public").head?).map
            (fun v => truthy (unquote v)) ∧
        (parse_yc_url_filters url).app_answers =
          ((getParamVals (parse_qs (getQuery url)) "app_answers").head?).map
            (fun v => truthy (unquote v)) ∧
        (parse_yc_url_filters url).question_answers =
          ((getParamVals (parse_qs (getQuery url)) "question_answers").head?).map
            (fun v => truthy (unquote v))) ∧
    (parse_yc_url_filters "https://a.com?top_company=TRUE").top_company = some true ∧
    (parse_yc_url_filters "https://a.com?nonprofit=yes&nonprofit=false").nonprofit = some true ∧
    (parse_yc_url_filters "https://a.com?isHiring=0").is_hiring = some false ∧
    (parse_yc_url_filters "https://a.com?app_video_public=1").app_video_public = some true ∧
    (parse_yc_url_filters "https://a.com").question_answers = none ∧
    coerceBool none = false ∧
    (∀ s : String, coerceBool (some (Sum.inr s)) = truthy s) ∧
    (∀ (c : Record) (f : FilterSpec),
        recordMatches { c with top_company := some (Sum.inr "true") } f =
          recordMatches { c with top_company := some (Sum.inl true) } f ∧
        recordMatches { c with nonprofit := some (Sum.inr "true") } f =
          recordMatches { c with nonprofit := some (Sum.inl true) } f ∧
        recordMatches { c with isHiring := some (Sum.inr "true") } f =
          recordMatches { c with isHiring := some (Sum.inl true) } f ∧
        recordMatches { c with app_video_public := some (Sum.inr "true") } f =
          recordMatches { c with app_video_public := some (Sum.inl true) } f ∧
        recordMatches { c with demo_day_video_public := some (Sum.inr "true") } f =
          recordMatches { c with demo_day_video_public := some (Sum.inl true) } f ∧
        recordMatches { c with app_answers := some (Sum.inr "true") } f =
          recordMatches { c with app_answers := some (Sum.inl true) } f ∧
        recordMatches { c with question_answers := some (Sum.inr "true") } f =
          recordMatches { c with question_answers := some (Sum.inl true) } f) ∧
    (∀ (c : Record) (b : Bool),
        recordMatches c { top_company := some b } =
          .ok (b == coerceBool c.top_company) ∧
        recordMatches c { nonprofit := some b } =
          .ok (b == coerceBool c.nonprofit) ∧
        recordMatches c { is_hiring := some b } =
          .ok (b == coerceBool c.isHiring) ∧
        recordMatches c { app_video_public := some b } =
          .ok (b == coerceBool c.app_video_public) ∧
        recordMatches c { demo_day_video_public := some b } =
          .ok (b == coerceBool c.demo_day_video_public) ∧
        recordMatches c { app_answers := some b } =
          .ok (b == coerceBool c.app_answers) ∧
        recordMatches c { question_answers := some b } =
          .ok (b == coerceBool c.question_answers)) := by
  refine ⟨fun url => ⟨rfl, rfl, rfl, rfl, rfl, rfl, rfl⟩,
    by decide, by decide, by decide, by decide, by decide, rfl, fun s => rfl,
    fun c f => ⟨rfl, rfl, rfl, rfl, rfl, rfl, rfl⟩, fun c b => ?_⟩
  refine ⟨?_, ?_, ?_, ?_, ?_, ?_, ?_⟩ <;>
    simp [recordMatches, batchPass, industryPass, regionPass, statusPass,
      tagsPass, stagePass, boolPass, boolCheck]

lemma nonemptyOpt_ne_some_nil {α : Type} [DecidableEq α] (l : List α) :
    nonemptyOpt l ≠ some ([] : List α) := by
  unfold nonemptyOpt
  by_cases h : l = [] <;> simp [h]

/-- C6: the FilterSpec produced by `parse_yc_url_filters` never carries an
empty active constraint: no key of the cleaned dict maps to an empty list
(`None`-valued and empty keys are removed, which the `Option` encoding makes
a structural invariant). -/
theorem C6_no_empty_active_keys (url : String) :
    (parse_yc_url_filters url).batches ≠ some [] ∧
    (parse_yc_url_filters url).industries ≠ some [] ∧
    (parse_yc_url_filters url).regions ≠ some [] ∧
    (parse_yc_url_filters url).statuses ≠ some [] ∧
    (parse_yc_url_filters url).tags ≠ some [] ∧
    (parse_yc_url_filters url).stages ≠ some [] ∧
    (parse_yc_url_filters url).team_sizes ≠ some [] :=
  ⟨nonemptyOpt_ne_some_nil _, nonemptyOpt_ne_some_nil _, nonemptyOpt_ne_some_nil _,
   nonemptyOpt_ne_some_nil _, nonemptyOpt_ne_some_nil _, nonemptyOpt_ne_some_nil _,
   nonemptyOpt_ne_some_nil _⟩

/-- The non-empty `&`-chunks of the URL's query string (the raw
`name=value` occurrences, in order). -/
def rawChunks (url : String) : List (List Char) :=
  (splitOnChar '&' (getQuery url)).filter (fun nv => !(nv == []))

lemma get_param_eq_raw (url : String) (key : String) :
    get_param (parse_qs (getQuery url)) key =
      (rawChunks url).filterMap (fun nv =>
        if (decodePair nv).1 = key then some (unquote (decodePair nv).2) else none) := by
  unfold get_param getParamVals parse_qs rawChunks
  rw [List.filterMap_map, List.map_filterMap]
  apply List.filterMap_congr
  intro nv _
  by_cases h : (decodePair nv).1 = key <;> simp [h]

/-- C7 counterexample: the claim says a string-list entry is the raw value
percent-decoded once, but the code decodes twice (`parse_qs` once,
`get_param` again): for the raw value `a%2520b` one decode gives `a%20b`,
while the parsed FilterSpec holds `a b`. -/
theorem C7_counterexample :
    (parse_yc_url_filters
        "https://www.ycombinator.com/companies?batch=a%2520b").batches =
      some ["a b"] ∧
    unquote "a%2520b" = "a%20b" ∧
    ("a b" : String) ≠ "a%20b" :=
  ⟨by decide, by decide, by decide⟩

/-- C7 (amended): for each string-list parameter, every `&`-chunk whose
decoded name equals the key contributes exactly one entry, in occurrence
order, and the entry is the chunk's value decoded twice (`+`-to-space and
percent-decoding by `parse_qs`, then a second percent-decoding by
`get_param`); a key with no value contributes the empty-string entry. -/
theorem C7_string_list_params (url : String) :
    (parse_yc_url_filters url).batches =
      nonemptyOpt ((rawChunks url).filterMap fun nv =>
        if (decodePair nv).1 = "batch" then some (unquote (decodePair nv).2) else none) ∧
    (parse_yc_url_filters url).industries =
      nonemptyOpt ((rawChunks url).filterMap fun nv =>
        if (decodePair nv).1 = "industry" then some (unquote (decodePair nv).2) else none) ∧
    (parse_yc_url_filters url).regions =
      nonemptyOpt ((rawChunks url).filterMap fun nv =>
        if (decodePair nv).1 = "region" then some (unquote (decodePair nv).2) else none) ∧
    (parse_yc_url_filters url).statuses =
      nonemptyOpt ((rawChunks url).filterMap fun nv =>
        if (decodePair nv).1 = "status" then some (unquote (decodePair nv).2) else none) ∧
    (parse_yc_url_filters url).tags =
      nonemptyOpt ((rawChunks url).filterMap fun nv =>
        if (decodePair nv).1 = "tags" then some (unquote (decodePair nv).2) else none) ∧
    (parse_yc_url_filters url).stages =
      nonemptyOpt ((rawChunks url).filterMap fun nv =>
        if (decodePair nv).1 = "stage" then some (unquote (decodePair nv).2) else none) ∧
    (parse_yc_url_filters "https://a.com?batch").batches = some [""] := by
  refine ⟨?_, ?_, ?_, ?_, ?_, ?_, by decide⟩ <;> rw [← get_param_eq_raw] <;> rfl

/-- C8 counterexample: the bracket test is made on the once-decoded value,
but the value that is wrapped (or JSON-parsed) is decoded a second time, so
no single notion of "the decoded value" satisfies the claim: for the raw
team-size value `a%2520b`, one decode gives `a%20b`, yet the parsed filter
holds the token `a b`. -/
theorem C8_counterexample :
    (parse_yc_url_filters "https://a.com?team_size=a%2520b").team_sizes =
      some [.str "a b"] ∧
    unquote "a%2520b" = "a%20b" ∧
    TSToken.str "a b" ≠ TSToken.str "a%20b" :=
  ⟨by decide, by decide, by decide⟩

/-- C8 (amended): only the first `team_size` occurrence is used; the bracket
test (`[` first, `]` last) is made on its once-decoded value; the JSON text
that is parsed — and likewise the single wrapped value — is that value
percent-decoded a second time; a well-formed JSON array yields its element
list whatever the element types (strings with escapes, booleans, null,
numbers, nested containers), while JSON the array grammar rejects degrades
to the empty token list, which the clean-up step then drops entirely. -/
theorem C8_team_size_parse (url : String) :
    (parse_yc_url_filters url).team_sizes =
      nonemptyOpt
        (match (getParamVals (parse_qs (getQuery url)) "team_size").head? with
         | none => []
         | some v => parse_team_size_filter v) ∧
    (∀ v : String, parse_team_size_filter v =
      if v.data.head? = some '[' ∧ v.data.getLast? = some ']' then
        match jsonLoads (unquote v) with
        | some l => l
        | none => []
      else [.str (unquote v)]) ∧
    parse_team_size_filter "[5,]" = [] ∧
    (parse_yc_url_filters "https://a.com?team_size=[5,]").team_sizes = none ∧
    (parse_yc_url_filters
        "https://a.com?team_size=%5B%225%22%2C%221%2C000%2B%22%5D").team_sizes =
      some [.str "5", .str "1,000+"] ∧
    (parse_yc_url_filters "https://a.com?team_size=12").team_sizes =
      some [.str "12"] ∧
    (parse_yc_url_filters
        "https://a.com?team_size=[%22%5Cu0041%22]").team_sizes =
      some [.str "A"] ∧
    (parse_yc_url_filters "https://a.com?team_size=[true]").team_sizes =
      some [.bool true] ∧
    (parse_yc_url_filters
        "https://a.com?team_size=[null,[5],1.5]").team_sizes =
      some [.null, .arr (.cons (.num 5) .nil), .float 15 (-1)] ∧
    (parse_yc_url_filters
        "https://a.com?team_size=[%7B%22a%22%3A1%7D]").team_sizes =
      some [.obj (.cons "a" (.num 1) .nil)] :=
  ⟨rfl, fun v => rfl, by decide, by decide, by decide, by decide, by decide,
   by decide, by decide, by decide⟩

/-- C9: when no record makes the team-size comparison raise,
`filter_companies` returns exactly the input's accepted records, in input
order — the sublist of the input selected by the per-record predicate.  The
embedding is pure, reflecting that the Python loop reads but never writes
the records and the filter dict. -/
theorem C9_filter_all (rs : List Record) (f : FilterSpec)
    (h : ∀ c ∈ rs, recordMatches c f ≠ .error ()) :
    filter_companies rs f =
      .ok (rs.filter fun c => recordMatches c f == .ok true) ∧
    (rs.filter fun c => recordMatches c f == .ok true).Sublist rs := by
  refine ⟨?_, List.filter_sublist rs⟩
  induction rs with
  | nil => rfl
  | cons c rest ih =>
      have hc := h c (by simp)
      have ih2 := ih (fun x hx => h x (by simp [hx]))
      cases hm : recordMatches c f with
      | error e => cases e; exact absurd hm hc
      | ok b =>
          cases b
          · simp [filter_companies, hm, ih2]
          · simp [filter_companies, hm, ih2, Except.map]

/-- C9 witness: the theorem at a one-record list and the empty filter. -/
theorem C9_filter_all_witness :
    filter_companies [({} : Record)] ({} : FilterSpec) =
      .ok (([({} : Record)]).filter
        fun c => recordMatches c ({} : FilterSpec) == .ok true) ∧
    (([({} : Record)]).filter
        fun c => recordMatches c ({} : FilterSpec) == .ok true).Sublist
      [({} : Record)] :=
  C9_filter_all [{}] {} (by decide)

/-- All filter categories that the inline `fetch_yc_companies` filter
ignores are inactive. -/
def sideKeysInactive (f : FilterSpec) : Prop :=
  f.regions = none ∧ f.statuses = none ∧ f.tags = none ∧ f.stages = none ∧
  f.team_sizes = none ∧ f.top_company = none ∧ f.nonprofit = none ∧
  f.is_hiring = none ∧ f.app_video_public = none ∧
  f.demo_day_video_public = none ∧ f.app_answers = none ∧
  f.question_answers = none

lemma recordMatches_side_inactive (c : Record) (f : FilterSpec)
    (hside : sideKeysInactive f) :
    recordMatches c f = .ok (batchPass c f && industryPass c f) := by
  obtain ⟨h1, h2, h3, h4, h5, h6, h7, h8, h9, h10, h11, h12⟩ := hside
  have hr : regionPass c f = true := by simp [regionPass, h1]
  have hs : statusPass c f = true := by simp [statusPass, h2]
  have ht : tagsPass c f = true := by simp [tagsPass, h3]
  have hg : stagePass c f = true := by simp [stagePass, h4]
  have hbool : boolPass c f = true := by
    simp [boolPass, boolCheck, h6, h7, h8, h9, h10, h11, h12]
  unfold recordMatches
  simp only [hr, hs, ht, hg, h5, hbool]
  cases hb : batchPass c f <;> cases hi : industryPass c f <;> simp

lemma industryPass_main (c : Record) (f : FilterSpec)
    (h : f.industries = none ∨ c.industries = []) :
    industryPass c f =
      (match f.industries with
       | none => true
       | some l => anyTokCI l c.industry) := by
  cases hi : f.industries with
  | none => simp [industryPass, hi]
  | some l =>
      cases h with
      | inl h1 => rw [h1] at hi; cases hi
      | inr h2 => simp [industryPass, hi, h2]

lemma filter_companies_eq_fetch (rs : List Record) (f : FilterSpec)
    (h : ∀ c ∈ rs, recordMatches c f = .ok (outreachAccept c f)) :
    filter_companies rs f = .ok (fetch_yc_companies_filter rs f) := by
  induction rs with
  | nil => rfl
  | cons c rest ih =>
      have hc := h c (by simp)
      have ih2 := ih (fun x hx => h x (by simp [hx]))
      cases ho : outreachAccept c f
      · rw [ho] at hc
        simp [filter_companies, hc, fetch_yc_companies_filter, List.filter_cons,
          ho, ih2]
      · rw [ho] at hc
        simp [filter_companies, hc, fetch_yc_companies_filter, List.filter_cons,
          ho, ih2, Except.map]

/-- C10 counterexample: with the industry filter `["consumer"]`, a record
whose singular `industry` field is empty but whose `industries` list holds
`"Consumer"` is accepted by `filter_companies` (which falls back to the
`industries` array) and rejected by the inline `fetch_yc_companies` filter
(which checks only the singular field) — so the two do not accept the same
records on a `{industries}`-only FilterSpec, and a record accepted by
`filter_companies` is not accepted by the inline filter. -/
theorem C10_counterexample :
    fetch_yc_companies_filter
        [{ industry := "", industries := ["Consumer"] }]
        { industries := some ["consumer"] } = [] ∧
    filter_companies
        [{ industry := "", industries := ["Consumer"] }]
        { industries := some ["consumer"] } =
      .ok [{ industry := "", industries := ["Consumer"] }] :=
  ⟨by decide, by decide⟩

/-- C10 (amended): the two implementations agree exactly on every FilterSpec
whose only active key is `batches`; with `industries` also active they agree
on record lists whose `industries` arrays are all empty; a record the inline
filter accepts is always accepted by `filter_companies` when the ignored
categories are inactive; and whenever `industries` is inactive, every record
`filter_companies` accepts is accepted by the inline filter.  The claimed
agreement fails only through the `industries`-array fallback, which the
inline filter lacks. -/
theorem C10_agreement (rs : List Record) (c : Record) (f : FilterSpec) :
    (sideKeysInactive f → f.industries = none →
       filter_companies rs f = .ok (fetch_yc_companies_filter rs f)) ∧
    (sideKeysInactive f → (∀ r ∈ rs, r.industries = []) →
       filter_companies rs f = .ok (fetch_yc_companies_filter rs f)) ∧
    (sideKeysInactive f → outreachAccept c f = true →
       recordMatches c f = .ok true) ∧
    (f.industries = none → recordMatches c f = .ok true →
       outreachAccept c f = true) := by
  refine ⟨?_, ?_, ?_, ?_⟩
  · intro hside hind
    apply filter_companies_eq_fetch
    intro r _
    rw [recordMatches_side_inactive r f hside, industryPass_main r f (Or.inl hind)]
    rfl
  · intro hside hrec
    apply filter_companies_eq_fetch
    intro r hr
    rw [recordMatches_side_inactive r f hside,
      industryPass_main r f (Or.inr (hrec r hr))]
    rfl
  · intro hside hacc
    rw [recordMatches_side_inactive c f hside]
    unfold outreachAccept at hacc
    rw [Bool.and_eq_true] at hacc
    have hb : batchPass c f = true := hacc.1
    have hmain :
        (match f.industries with
         | none => true
         | some l => anyTokCI l c.industry) = true := hacc.2
    have hip : industryPass c f = true := by
      cases hi : f.industries with
      | none => simp [industryPass, hi]
      | some l =>
          rw [hi] at hmain
          have hmain2 : anyTokCI l c.industry = true := hmain
          simp [industryPass, hi, hmain2]
    rw [hb, hip]
    rfl
  · intro hind hok
    have h := (recordMatches_eq_ok_true c f).mp hok
    have hb : batchPass c f = true := h.1
    unfold outreachAccept
    unfold batchPass at hb
    rw [hind, hb]
    rfl

/-- C10 witness: the batches-only agreement clause at a concrete record list
and FilterSpec. -/
theorem C10_agreement_witness :
    filter_companies [({} : Record)] ({ batches := some ["w"] } : FilterSpec) =
      .ok (fetch_yc_companies_filter [({} : Record)]
        { batches := some ["w"] }) :=
  (C10_agreement [{}] {} { batches := some ["w"] }).1
    (by simp [sideKeysInactive]) rfl
